import Mathlib

/-
Verification development for the reference-resolution engine and the
event/broadcast dispatch framework of the robotcode language server.

The definitions below are a shallow embedding of
  src/robotcode/language_server/robotframework/parts/references.py
  src/robotcode/utils/async_event.py
  src/robotcode/language_server/parts/folding_range.py
External collaborators (the Robot Framework tokenizer, the namespace index,
the keyword matcher helpers) that are not part of this repository's sources
are modelled from the specification, as marked in their doc comments.
-/

set_option autoImplicit false

namespace RobotCode

/-! ## Tokens, names and locations -/

/-- Normalization used by the keyword matcher, modelled from the spec:
a Matcher is "a normalized-equality comparison for names
(case/space/underscore-insensitive)". Lower-cases and removes spaces and
underscores. -/
def normalizeName (s : String) : String :=
  String.mk ((s.data.filter (fun c => c ≠ ' ' ∧ c ≠ '_')).map Char.toLower)

/-- A lexer token of the parsed script: its text value and its position in
the source file (positions abstracted to a single natural number). -/
structure Token where
  value : String
  pos : Nat
deriving DecidableEq, Repr

/-- Does the character list end with a closing brace? -/
def endsWithCloseBrace : List Char → Bool
  | [] => false
  | [c] => c = '\x7d'
  | _ :: c :: rest => endsWithCloseBrace (c :: rest)

/-- Modelled from the spec: a token value that is itself a variable
reference, such as a whole-token occurrence of a dollar-brace variable
(any of the four variable identifier characters followed by a braced
body). -/
def isVariableValue (s : String) : Bool :=
  match s.data with
  | c :: '\x7b' :: rest =>
    (c = '$' || c = '@' || c = '&' || c = '%') && endsWithCloseBrace ('\x7b' :: rest)
  | _ => false

/-- Modelled from the spec: "Skip if the target token is itself a variable
reference." Mirrors the guard applied to keyword-name tokens before any
static resolution is attempted. -/
def isNotVariableToken (t : Token) : Bool :=
  !isVariableValue t.value

/-- One level of backslash escape decoding, modelled from the spec's
"escape-decoded" annotation on nested keyword names (the decoder itself
lives in the external Robot Framework library). -/
def unescapeChars : List Char → List Char
  | [] => []
  | '\\' :: c :: rest => c :: unescapeChars rest
  | c :: rest => c :: unescapeChars rest

/-- String form of the escape decoder. -/
def unescapeString (s : String) : String :=
  String.mk (unescapeChars s.data)

/-- A result location: document URI plus the (abstracted) source range of
the matched token. -/
structure Location where
  uri : String
  pos : Nat
deriving DecidableEq, Repr

/-! ## Keyword and variable definitions, namespaces -/

/-- Classification of a keyword as one of the dynamic run-keyword wrapper
idioms, modelled from the spec's classification flags
(is-run-keyword, is-run-keyword-with-condition(n), is-run-keywords,
is-run-keyword-if); the flags are mutually exclusive. -/
inductive RunKeywordKind where
  | notRunKeyword
  | runKeyword
  | runKeywordWithCondition (condCount : Nat)
  | runKeywords
  | runKeywordIf
deriving DecidableEq, Repr

/-- A keyword definition object.  The field `oid` models object identity:
two keyword docs with the same declared name but distinct `oid` are
distinct definition objects (spec: "Identity is by definition object, not
name"). -/
structure KeywordDoc where
  oid : Nat
  name : String
  runKind : RunKeywordKind
deriving DecidableEq, Repr

/-- A variable definition object; `oid` models object identity, and
`isLocalOrArgument` the Argument/LocalVariable scope kinds that restrict
the search to the originating document. -/
structure VariableDefinition where
  oid : Nat
  name : String
  isLocalOrArgument : Bool
deriving DecidableEq, Repr

/-- The per-file namespace, modelled from the spec's external-collaborator
interface: keyword lookup by (possibly qualified) name, the normalized
names of the imported libraries and resources, and variable lookup through
a scope chain at a position. -/
structure RFNamespace where
  source : String
  findKeyword : String → Option KeywordDoc
  libraryMatchers : List String
  resourceMatchers : List String
  findVariable : String → List Nat → Nat → Option VariableDefinition

/-- Splitting a character list on the dot character (semantics of the
`str.split` used for qualified names). -/
def splitOnDotChars : List Char → List (List Char)
  | [] => [[]]
  | '.' :: rest => [] :: splitOnDotChars rest
  | c :: rest =>
    match splitOnDotChars rest with
    | [] => [[c]]
    | g :: gs => (c :: g) :: gs

/-- Joining character-list parts with dots (semantics of the dot join used
for qualified names). -/
def joinWithDotChars : List (List Char) → List Char
  | [] => []
  | [g] => g
  | g :: gs => g ++ '.' :: joinWithDotChars gs

/-- Modelled from the spec: "Split the token's text into an optional
qualifier and a bare name (qualifier syntax: Qualifier.Name)".  Yields the
unqualified reading first, then every split of the dotted name into a
qualifier prefix and a bare-name suffix. -/
def iterOverKeywordNamesAndOwners (fullName : String) : List (Option String × String) :=
  (none, fullName) ::
    (let parts := splitOnDotChars fullName.data
     if parts.length > 1 then
       (List.range (parts.length - 1)).map (fun i =>
         (some (String.mk (joinWithDotChars (parts.take (i + 1)))),
          String.mk (joinWithDotChars (parts.drop (i + 1)))))
     else [])

/-- Modelled from the spec: the normalized names of the dynamic
"invoke-keyword-by-name" wrapper keywords recognized by the unwrapper. -/
def allRunKeywordsMatchers : List String :=
  [ "runkeyword", "runkeywords", "runkeywordif", "runkeywordunless",
    "runkeywordandcontinueonfailure", "runkeywordandexpecterror",
    "runkeywordandignoreerror", "runkeywordandreturn",
    "runkeywordandreturnif", "runkeywordandreturnstatus",
    "runkeywordiftestfailed", "runkeywordiftestpassed",
    "runkeywordiftimeoutoccurred", "repeatkeyword",
    "waituntilkeywordsucceeds" ]

/-! ## The run-keyword unwrapper

`unwrapAnyRunKeyword` is the pure reinterpretation step of
`get_keyword_references_from_any_run_keyword`
(references.py, lines 411-483): given the call's name token and its
argument tokens, it produces the list of nested invocations
(name token, argument tokens, escape-decode flag) that the generator feeds
back into `get_keyword_references_from_tokens`. -/

/-- A nested invocation produced by the unwrapper: the nested keyword-name
token, its argument tokens, and whether the name is escape-decoded before
matching (the `unescape_kw_token` flag of the recursive call). -/
structure NestedInvocation where
  nameToken : Token
  argTokens : List Token
  unescapeName : Bool
deriving DecidableEq, Repr

/-- Splits a list at the first element satisfying the predicate, returning
the elements before it, the element itself, and the elements after it.
Mirrors the `next((e for e in arguments if ...), None)` / `index` /
slicing idiom of the separator handling in references.py. -/
def splitAtFirst (p : Token → Bool) : List Token → Option (List Token × Token × List Token)
  | [] => none
  | x :: xs =>
    if p x then some ([], x, xs)
    else (splitAtFirst p xs).map (fun r => (x :: r.1, r.2.1, r.2.2))

/-- The `is_run_keywords()` loop of
`get_keyword_references_from_any_run_keyword` (references.py, lines
441-462): pops the head token, skips literal AND tokens, takes the tokens
up to the next AND as the segment's arguments (or, with no further AND,
the remaining tokens provided a separator was seen before), and continues
the loop on the not-yet-consumed tokens.  The fuel argument only bounds the
number of loop iterations; each iteration pops at least one token, so
`length + 1` fuel is always sufficient. -/
def splitRunKeywordsAux : Nat → Bool → List Token → List NestedInvocation
  | 0, _, _ => []
  | _ + 1, _, [] => []
  | fuel + 1, hasSeparator, t :: rest =>
    if t.value = "AND" then splitRunKeywordsAux fuel hasSeparator rest
    else
      match splitAtFirst (fun e => e.value == "AND") rest with
      | some (before, _, after) =>
        (if isNotVariableToken t then [⟨t, before, true⟩] else [])
          ++ splitRunKeywordsAux fuel true after
      | none =>
        (if isNotVariableToken t then [⟨t, if hasSeparator then rest else [], true⟩] else [])
          ++ splitRunKeywordsAux fuel hasSeparator rest

/-- Entry point of the run-keywords splitting loop (`has_separator` starts
out false). -/
def splitRunKeywords (arguments : List Token) : List NestedInvocation :=
  splitRunKeywordsAux (arguments.length + 1) false arguments

/-- Is the token a literal ELSE or ELSE IF marker? -/
def isElseSeparator (e : Token) : Bool :=
  e.value == "ELSE" || e.value == "ELSE IF"

/-- The `is_run_keyword_if()` loop of
`get_keyword_references_from_any_run_keyword` (references.py, lines
463-483), applied after the leading condition token has been dropped: pops
the head token, skips literal ELSE / ELSE IF markers, takes the tokens up
to the next marker as the invocation's arguments (an ELSE IF marker also
drops the following condition token); with no further marker the
invocation gets no argument tokens and the loop continues on the remaining
tokens.  Fuel as in `splitRunKeywordsAux`. -/
def splitRunKeywordIfAux : Nat → List Token → List NestedInvocation
  | 0, _ => []
  | _ + 1, [] => []
  | fuel + 1, t :: rest =>
    if isElseSeparator t then splitRunKeywordIfAux fuel rest
    else
      match splitAtFirst isElseSeparator rest with
      | some (before, sep, after) =>
        (if isNotVariableToken t then [⟨t, before, true⟩] else [])
          ++ splitRunKeywordIfAux fuel (if sep.value == "ELSE IF" then after.drop 1 else after)
      | none =>
        (if isNotVariableToken t then [⟨t, [], true⟩] else [])
          ++ splitRunKeywordIfAux fuel rest

/-- Entry point of the run-keyword-if splitting loop. -/
def splitRunKeywordIf (arguments : List Token) : List NestedInvocation :=
  splitRunKeywordIfAux (arguments.length + 1) arguments

/-- The dispatch of `get_keyword_references_from_any_run_keyword`
(references.py, lines 411-483) as a pure function from the call's name
token and argument tokens to the nested invocations it recurses into:
rejects variable name tokens, resolves the name in the searched file's
namespace, and reinterprets the arguments according to the resolved
keyword's run-keyword classification.  In the conditional branch the code
guards on `is_not_variable_token(arguments[1])` — the literal index 1,
independent of the condition count — before recursing on
`arguments[cond_count]`; an out-of-range index 1 is modelled as no unwrap
(in the source it can only be reached by a conditional wrapper with zero
condition arguments and a single argument token). -/
def unwrapAnyRunKeyword (ns : RFNamespace) (kwToken : Token) (arguments : List Token) :
    List NestedInvocation :=
  if isNotVariableToken kwToken then
    match ns.findKeyword kwToken.value with
    | none => []
    | some kw =>
      match kw.runKind with
      | .notRunKeyword => []
      | .runKeyword =>
        match arguments with
        | [] => []
        | a0 :: rest => if isNotVariableToken a0 then [⟨a0, rest, false⟩] else []
      | .runKeywordWithCondition condCount =>
        if h : condCount < arguments.length then
          match arguments[1]? with
          | some a1 =>
            if isNotVariableToken a1 then
              [⟨arguments.get ⟨condCount, h⟩, arguments.drop (condCount + 1), true⟩]
            else []
          | none => []
        else []
      | .runKeywords => splitRunKeywords arguments
      | .runKeywordIf =>
        match arguments with
        | _ :: rest => if rest.isEmpty then [] else splitRunKeywordIf rest
        | [] => []
  else []

/-! ## Keyword-reference matching -/

/-- Does the qualifier prefix (if any) normalize-match a library or
resource imported into the searched file's namespace?  Mirrors the
`lib_matcher not in ... get_libraries_matchers ... continue` rejection in
`get_keyword_references_from_tokens` (references.py, lines 386-392). -/
def libraryOk (ns : RFNamespace) : Option String → Bool
  | none => true
  | some lib =>
    ns.libraryMatchers.contains (normalizeName lib)
      || ns.resourceMatchers.contains (normalizeName lib)

/-- `get_keyword_references_from_tokens` (references.py, lines 369-409),
with the recursion through
`get_keyword_references_from_any_run_keyword` inlined as a bind over
`unwrapAnyRunKeyword`: rejects variable name tokens, optionally
escape-decodes the name, and for every qualifier/bare-name reading of the
name whose qualifier is imported: yields the call site when the bare name
normalize-matches the target keyword's declared name AND the full name
re-resolved through this namespace is the identical definition object as
the target; and, when the bare name is one of the run-keyword wrapper
names and arguments are present, recurses into each nested invocation
produced by the unwrapper.  The fuel bounds the recursion depth; every
nested invocation has strictly fewer argument tokens, so `length + 1` fuel
is always sufficient. -/
def getKeywordReferencesFromTokensAux (ns : RFNamespace) (kwDoc : KeywordDoc) :
    Nat → Token → List Token → Bool → List Location
  | 0, _, _, _ => []
  | fuel + 1, kwToken, arguments, unescapeKwToken =>
    if isNotVariableToken kwToken then
      let kwName := if unescapeKwToken then unescapeString kwToken.value else kwToken.value
      (iterOverKeywordNamesAndOwners kwName).flatMap (fun ln =>
        if libraryOk ns ln.1 then
          (if normalizeName ln.2 = normalizeName kwDoc.name then
            match ns.findKeyword kwName with
            | some kw => if kw = kwDoc then [⟨ns.source, kwToken.pos⟩] else []
            | none => []
          else [])
          ++
          (if allRunKeywordsMatchers.contains (normalizeName ln.2) && !arguments.isEmpty then
            (unwrapAnyRunKeyword ns kwToken arguments).flatMap (fun inv =>
              getKeywordReferencesFromTokensAux ns kwDoc fuel inv.nameToken inv.argTokens
                inv.unescapeName)
          else [])
        else [])
    else []

/-- Entry point: the `kw_token` parameter is optional in the source (a
missing token yields nothing). -/
def getKeywordReferencesFromTokens (ns : RFNamespace) (kwDoc : KeywordDoc)
    (kwToken : Option Token) (arguments : List Token) (unescapeKwToken : Bool) :
    List Location :=
  match kwToken with
  | none => []
  | some t =>
    getKeywordReferencesFromTokensAux ns kwDoc (arguments.length + 1) t arguments unescapeKwToken

/-! ## Per-file traversals of the workspace-wide search -/

/-- Events observable during a per-file traversal: a node being visited by
the walk, and an explicit cancellation-signal check (`check_canceled`). -/
inductive WalkEvent where
  | visit
  | checkCanceled
deriving DecidableEq, Repr

/-- A node of the searched file's syntax tree as seen by the keyword walk
of `_find_keyword_references_in_namespace` (references.py, lines 328-367):
a keyword call, a fixture, a template / suite-template statement, or any
other node. Name tokens may be absent. -/
inductive RNode where
  | keywordCall (kwToken : Option Token) (arguments : List Token)
  | fixture (nameToken : Option Token) (arguments : List Token)
  | template (nameToken : Option Token)
  | other
deriving Repr

/-- Per-node matching step of the keyword walk: keyword calls and fixtures
are matched with their argument tokens, templates with an empty argument
list, all through `get_keyword_references_from_tokens`. -/
def keywordWalkNode (ns : RFNamespace) (kwDoc : KeywordDoc) : RNode → List Location
  | .keywordCall kwToken arguments => getKeywordReferencesFromTokens ns kwDoc kwToken arguments false
  | .fixture nameToken arguments => getKeywordReferencesFromTokens ns kwDoc nameToken arguments false
  | .template nameToken => getKeywordReferencesFromTokens ns kwDoc nameToken [] false
  | .other => []

/-- `_find_keyword_references_in_namespace` (references.py, lines
328-367): walks every node of the file's model; on every visited node it
first awaits `check_canceled()` and then matches the node against the
target keyword.  Returns the walk's event trace together with the
collected locations. -/
def findKeywordReferencesInNamespace (ns : RFNamespace) (kwDoc : KeywordDoc)
    (model : List RNode) : List WalkEvent × List Location :=
  (model.flatMap (fun _ => [WalkEvent.visit, WalkEvent.checkCanceled]),
   model.flatMap (keywordWalkNode ns kwDoc))

/-- Splits a character list at the first closing brace, returning the
characters before it and the characters after it. -/
def breakAtChar (c : Char) : List Char → Option (List Char × List Char)
  | [] => none
  | x :: xs =>
    if x = c then some ([], xs)
    else (breakAtChar c xs).map (fun r => (x :: r.1, r.2))

/-- Modelled from the spec: the external tokenizer's splitting of a token
into embedded variable-reference sub-tokens.  Scans the value for
dollar-brace spans and reports each span's text and offset.  The fuel
bounds the scan; one character is consumed per step, so `length + 1` fuel
is always sufficient. -/
def scanVariableSpans : Nat → List Char → Nat → List (String × Nat)
  | 0, _, _ => []
  | _ + 1, [], _ => []
  | fuel + 1, '$' :: '\x7b' :: rest, i =>
    (match breakAtChar '\x7d' rest with
     | some (inner, rest1) =>
       (String.mk ('$' :: '\x7b' :: (inner ++ ['\x7d'])), i) ::
         scanVariableSpans fuel rest1 (i + inner.length + 3)
     | none => [])
  | fuel + 1, _ :: rest, i => scanVariableSpans fuel rest (i + 1)

/-- The embedded variable-reference sub-tokens of a token, positioned
relative to the file. -/
def tokenizeVariables (t : Token) : List Token :=
  (scanVariableSpans (t.value.length + 1) t.value.data 0).map (fun sp =>
    ⟨sp.1, t.pos + sp.2⟩)

/-- A node of the searched file's syntax tree as seen by the variable walk
of `_find_variable_references_in_file` (references.py, lines 536-570): a
section header (which resets the current block), a test-case or keyword
block (which becomes the current block), or a statement carrying tokens.
Blocks and sections carry no direct tokens of their own. -/
inductive VNode where
  | section
  | block (id : Nat)
  | stmt (id : Nat) (tokens : List Token)
deriving Repr

/-- Per-node step of the variable walk: updates the current enclosing
block and, for statements, resolves every embedded variable-reference
sub-token through the enclosing scope chain (current block, then the
statement itself) at the token's start position, accepting a use site only
when the resolved definition object is identical to the target. -/
def variableWalkStep (ns : RFNamespace) (target : VariableDefinition) (docUri : String)
    (currentBlock : Option Nat) : VNode → Option Nat × List Location
  | .section => (none, [])
  | .block i => (some i, [])
  | .stmt i tokens =>
    (currentBlock,
     tokens.flatMap (fun tok =>
       (tokenizeVariables tok).flatMap (fun sub =>
         match ns.findVariable sub.value (currentBlock.toList ++ [i]) tok.pos with
         | some v => if v = target then [⟨docUri, sub.pos⟩] else []
         | none => [])))

/-- The node loop of `_find_variable_references_in_file` (references.py,
lines 551-570), with its event trace: every node is visited, the current
block is tracked, and statements are scanned for matching
variable-reference sub-tokens.  The loop performs no cancellation check of
its own. -/
def findVariableReferencesInFileAux (ns : RFNamespace) (target : VariableDefinition)
    (docUri : String) : Option Nat → List VNode → List WalkEvent × List Location
  | _, [] => ([], [])
  | currentBlock, n :: rest =>
    let step := variableWalkStep ns target docUri currentBlock n
    let tail := findVariableReferencesInFileAux ns target docUri step.1 rest
    (WalkEvent.visit :: tail.1, step.2 ++ tail.2)

/-- `_find_variable_references_in_file` (references.py, lines 536-570):
walks the file's model starting outside any block. -/
def findVariableReferencesInFile (ns : RFNamespace) (target : VariableDefinition)
    (docUri : String) (model : List VNode) : List WalkEvent × List Location :=
  findVariableReferencesInFileAux ns target docUri none model

/-! ## The workspace search entry points -/

/-- The `asyncio.gather(..., return_exceptions=True)` aggregation used by
both entry points (references.py, lines 527-533 and 597-603): a per-file
failure is logged and contributes no results; the other files' results are
concatenated. -/
def gatherIsolated (results : List (Except String (List Location))) : List Location :=
  results.flatMap (fun r =>
    match r with
    | .ok locs => locs
    | .error _ => [])

/-- `_find_keyword_references` (references.py, lines 485-533), with the
file enumeration and per-file searches abstracted into their outcome list:
with no owning workspace folder it returns the empty list; with a folder
but no namespace for the document it returns `none` (the Python `None`,
despite the declared `List[Location]` result type); otherwise the isolated
aggregation of the per-file outcomes. -/
def findKeywordReferences (folder : Option String) (ns : Option RFNamespace)
    (perFile : List (Except String (List Location))) : Option (List Location) :=
  match folder with
  | none => some []
  | some _ =>
    match ns with
    | none => none
    | some _ => some (gatherIsolated perFile)

/-- `_find_variable_references` (references.py, lines 572-603): same early
returns; a scope-limited (argument/local) target searches only the
originating document, any other target searches every candidate file. -/
def findVariableReferences (folder : Option String) (ns : Option RFNamespace)
    (target : VariableDefinition) (currentDocOutcome : Except String (List Location))
    (perFile : List (Except String (List Location))) : Option (List Location) :=
  match folder with
  | none => some []
  | some _ =>
    match ns with
    | none => none
    | some _ =>
      some (gatherIsolated (if target.isLocalOrArgument then [currentDocOutcome] else perFile))

/-- The list splice performed by the construct handlers on the search
result, e.g. the starred unpacking in `references_KeywordName`
(references.py, lines 182-190): unpacking a list succeeds, unpacking the
absent value `None` raises. -/
def spliceLocations : Option (List Location) → Except Unit (List Location)
  | some locs => .ok locs
  | none => .error ()

/-! ## The event/broadcast dispatch framework (async_event.py)

Listeners are identified by a natural number modelling the identity of the
referent of the stored weak reference; the registry holds the identities
of the currently live, registered listeners. -/

/-- The listener registry of `AsyncEventResultIteratorBase`
(async_event.py, lines 41-63): a set of weak listener references, modelled
as a duplicate-free list of listener identities. -/
structure EventState where
  listeners : List Nat
deriving DecidableEq, Repr

/-- `add` (async_event.py, lines 47-56): inserts a weak reference to the
callback; the set deduplicates by referent identity. -/
def addListener (s : EventState) (l : Nat) : EventState :=
  if l ∈ s.listeners then s else ⟨s.listeners ++ [l]⟩

/-- `remove` (async_event.py, lines 58-63): `set.remove` succeeds exactly
when an equal weak reference is present and raises `KeyError` (the
NotFound failure) otherwise — in particular for a listener that was never
added or whose registration already expired. -/
def removeListener (s : EventState) (l : Nat) : Except Unit EventState :=
  if l ∈ s.listeners then .ok ⟨s.listeners.erase l⟩ else .error ()

/-- The `remove_listener` weak-reference finalizer (async_event.py, lines
48-50): a listener whose owner is collected is silently dropped from the
set. -/
def expireListener (s : EventState) (l : Nat) : EventState :=
  ⟨s.listeners.erase l⟩

/-- The listeners a dispatch invokes: `_notify` (async_event.py, lines
65-73, 151-169, 284-299) iterates the registered listeners and invokes
every one whose weak reference is still live. -/
def notifyInvoked (s : EventState) : List Nat :=
  s.listeners

/-- The registry-mutating operations that can happen between a removal and
a later dispatch. -/
inductive EventOp where
  | add (l : Nat)
  | remove (l : Nat)
  | expire (l : Nat)
deriving DecidableEq, Repr

/-- Applies one registry operation; a failing removal leaves the registry
unchanged. -/
def applyOp (s : EventState) : EventOp → EventState
  | .add l => addListener s l
  | .remove l =>
    match removeListener s l with
    | .ok s1 => s1
    | .error _ => s
  | .expire l => expireListener s l

/-- Is a dispatch-stream entry an error-tagged entry (a raised exception
surfaced in place of a value)? -/
def isErrorEntry {ε ρ : Type} : Except ε ρ → Bool
  | .error _ => true
  | .ok _ => false

/-- The result-collection loop shared by
`AsyncTaskingEventResultIteratorBase._notify` (async_event.py, lines
171-176) and `AsyncThreadingEventResultIteratorBase._notify` (lines
301-306): the listener outcomes are consumed in completion order; a value
is yielded as is, a raised exception is dropped when `ignore_exceptions`
is true and yielded as an error-tagged entry when it is false. -/
def notifyCompletedLoop {ε ρ : Type} (ignoreExceptions : Bool) :
    List (Except ε ρ) → List (Except ε ρ)
  | [] => []
  | .ok r :: rest => .ok r :: notifyCompletedLoop ignoreExceptions rest
  | .error e :: rest =>
    (if ignoreExceptions then [] else [.error e]) ++ notifyCompletedLoop ignoreExceptions rest

/-- The outcomes of the started listener tasks in submission order: each
live listener either returns a value or raises. -/
def listenerOutcomes {ε ρ : Type} (s : EventState) (behavior : Nat → Except ε ρ) :
    List (Except ε ρ) :=
  s.listeners.map behavior

/-! ## The folding-range feature (folding_range.py) -/

/-- A folding range contributed by a listener. -/
structure FoldingRange where
  startLine : Nat
  endLine : Nat
deriving DecidableEq, Repr

/-- The `collect_folding_range` dispatch as invoked by
`_text_document_folding_range` (folding_range.py, line 39): the threading
dispatcher's `__call__` forwards to `_notify` without an
`ignore_exceptions` argument, so the default `ignore_exceptions=True`
applies to the collection loop. -/
def collectFoldingRange (completed : List (Except String (List FoldingRange))) :
    List (Except String (List FoldingRange)) :=
  notifyCompletedLoop true completed

/-- The aggregation loop of `_text_document_folding_range`
(folding_range.py, lines 37-45): exception entries are logged and skipped,
list entries are appended to the result. -/
def foldingAggregate : List (Except String (List FoldingRange)) → List FoldingRange
  | [] => []
  | .error _ :: rest => foldingAggregate rest
  | .ok fr :: rest => fr ++ foldingAggregate rest

/-- `_text_document_folding_range` (folding_range.py, lines 32-45):
dispatches the collection event and aggregates the entries. -/
def textDocumentFoldingRange (completed : List (Except String (List FoldingRange))) :
    List FoldingRange :=
  foldingAggregate (collectFoldingRange completed)

/-! ## Event descriptors (declaration-site dispatcher binding) -/

/-- The state of an event descriptor declared on a class: the lazily
created dispatcher, stored on the descriptor object itself
(`self.__event`, async_event.py, lines 90-111). Dispatcher objects are
identified by a natural number. -/
structure EventDescriptor where
  event : Option Nat
deriving DecidableEq, Repr

/-- The result of an attribute access through the descriptor protocol. -/
inductive DescriptorAccessResult where
  | descriptorItself
  | event (id : Nat)
deriving DecidableEq, Repr

/-- `AsyncEventDescriptorBase.__get__` (async_event.py, lines 104-111):
access through the class returns the descriptor itself; access through any
instance returns the dispatcher, creating it on first access (`fresh` is
the identity the factory would assign to a newly created dispatcher).  The
accessing instance `obj` is only tested for being absent — the dispatcher
is stored on the descriptor, not on the instance. -/
def descriptorGet (d : EventDescriptor) (obj : Option Nat) (fresh : Nat) :
    DescriptorAccessResult × EventDescriptor :=
  match obj with
  | none => (.descriptorItself, d)
  | some _ =>
    match d.event with
    | some e => (.event e, d)
    | none => (.event fresh, ⟨some fresh⟩)

/-- A store assigning each dispatcher identity its listener registry. -/
def EventStore : Type := Nat → EventState

/-- Adds a listener to the dispatcher with the given identity. -/
def addThrough (store : EventStore) (eventId : Nat) (l : Nat) : EventStore :=
  fun e => if e = eventId then addListener (store e) l else store e

/-- The listeners invoked by a dispatch made on the dispatcher with the
given identity. -/
def dispatchThrough (store : EventStore) (eventId : Nat) : List Nat :=
  notifyInvoked (store eventId)

/-! ## Concrete wrapper fixtures for the unwrapper claims -/

/-- The run-keywords (multi) wrapper. -/
def runKeywordsDoc : KeywordDoc := ⟨100, "Run Keywords", .runKeywords⟩

/-- The run-keyword-if chain wrapper. -/
def runKeywordIfDoc : KeywordDoc := ⟨101, "Run Keyword If", .runKeywordIf⟩

/-- A conditional run-keyword wrapper with two condition arguments. -/
def waitUntilDoc : KeywordDoc := ⟨102, "Wait Until Keyword Succeeds", .runKeywordWithCondition 2⟩

/-- A conditional run-keyword wrapper with one condition argument. -/
def returnIfDoc : KeywordDoc := ⟨103, "Run Keyword And Return If", .runKeywordWithCondition 1⟩

/-- A namespace resolving exactly the wrapper keywords above. -/
def builtinNs : RFNamespace :=
  ⟨"file:///suite.robot",
   fun s =>
     if s = "Run Keywords" then some runKeywordsDoc
     else if s = "Run Keyword If" then some runKeywordIfDoc
     else if s = "Wait Until Keyword Succeeds" then some waitUntilDoc
     else if s = "Run Keyword And Return If" then some returnIfDoc
     else none,
   [], [], fun _ _ _ => none⟩

/-- The target keyword of the C1 witness. -/
def targetKwDoc : KeywordDoc := ⟨1, "My Kw", .notRunKeyword⟩

/-- A same-named but distinct keyword definition object. -/
def otherKwDoc : KeywordDoc := ⟨2, "My Kw", .notRunKeyword⟩

/-- A namespace resolving the target keyword's name to the target. -/
def kwNs : RFNamespace :=
  ⟨"file:///lib.robot",
   fun s => if normalizeName s = "mykw" then some targetKwDoc else none,
   [], [], fun _ _ _ => none⟩

/-- A namespace resolving the same name to the distinct definition. -/
def kwNsOther : RFNamespace :=
  ⟨"file:///other.robot",
   fun s => if normalizeName s = "mykw" then some otherKwDoc else none,
   [], [], fun _ _ _ => none⟩

/-- The target variable of the C1 witness. -/
def varTarget : VariableDefinition := ⟨7, "${v}", true⟩

/-- A same-named but distinct variable definition object. -/
def varOther : VariableDefinition := ⟨8, "${v}", true⟩

/-- A namespace resolving the variable's name to the target. -/
def varNs : RFNamespace :=
  ⟨"file:///s.robot", fun _ => none, [], [],
   fun nm _ _ => if nm = "${v}" then some varTarget else none⟩

/-- A namespace resolving the same variable name to the distinct
definition. -/
def varNsOther : RFNamespace :=
  ⟨"file:///o.robot", fun _ => none, [], [],
   fun nm _ _ => if nm = "${v}" then some varOther else none⟩

/-! ## Fuel sufficiency of the unwrapper embedding

Every nested invocation produced by the unwrapper carries strictly fewer
argument tokens than the unwrapped call, so the `length + 1` fuel used by
`getKeywordReferencesFromTokens` can never be exhausted before the
recursion bottoms out. -/

theorem splitAtFirst_length (p : Token → Bool) :
    ∀ (l before : List Token) (sep : Token) (after : List Token),
      splitAtFirst p l = some (before, sep, after) →
      before.length + 1 + after.length = l.length := by
  intro l
  induction l with
  | nil =>
    intro before sep after h
    simp [splitAtFirst] at h
  | cons x xs ih =>
    intro before sep after h
    by_cases hx : p x = true
    · rw [splitAtFirst, if_pos hx] at h
      have heq := Option.some.inj h
      have hb : ([] : List Token) = before := congrArg Prod.fst heq
      have ha : xs = after := congrArg (fun r => r.2.2) heq
      rw [← hb, ← ha]
      simp only [List.length_nil, List.length_cons]
      omega
    · rw [splitAtFirst, if_neg hx] at h
      rcases hsp : splitAtFirst p xs with _ | ⟨⟨b, s, a⟩⟩
      · rw [hsp] at h
        simp at h
      · rw [hsp] at h
        have heq := Option.some.inj h
        have hb : x :: b = before := congrArg Prod.fst heq
        have ha : a = after := congrArg (fun r => r.2.2) heq
        have hlen := ih b s a hsp
        rw [← hb, ← ha]
        simp only [List.length_cons]
        omega

theorem splitRunKeywordsAux_arg_lt :
    ∀ (fuel : Nat) (hasSeparator : Bool) (args : List Token) (inv : NestedInvocation),
      inv ∈ splitRunKeywordsAux fuel hasSeparator args →
      inv.argTokens.length < args.length := by
  intro fuel
  induction fuel with
  | zero =>
    intro hasSeparator args inv h
    simp [splitRunKeywordsAux] at h
  | succ fuel ih =>
    intro hasSeparator args inv h
    match args with
    | [] => simp [splitRunKeywordsAux] at h
    | t :: rest =>
      rw [splitRunKeywordsAux] at h
      by_cases hand : t.value = "AND"
      · rw [if_pos hand] at h
        have := ih hasSeparator rest inv h
        simp only [List.length_cons]
        omega
      · rw [if_neg hand] at h
        rcases hsp : splitAtFirst (fun e => e.value == "AND") rest
            with _ | ⟨⟨before, sep, after⟩⟩
        · rw [hsp] at h
          rcases List.mem_append.mp h with hyield | htail
          · have : inv.argTokens = if hasSeparator then rest else [] := by
              by_cases hv : isNotVariableToken t = true
              · rw [if_pos hv] at hyield
                rw [List.mem_singleton.mp hyield]
              · rw [if_neg hv] at hyield
                cases hyield
            rw [this]
            by_cases hsep : hasSeparator = true
            · rw [if_pos hsep]
              simp only [List.length_cons]
              omega
            · rw [if_neg hsep]
              simp only [List.length_nil, List.length_cons]
              omega
          · have := ih hasSeparator rest inv htail
            simp only [List.length_cons]
            omega
        · rw [hsp] at h
          have hlen := splitAtFirst_length (fun e => e.value == "AND") rest before sep
            after hsp
          rcases List.mem_append.mp h with hyield | htail
          · have : inv.argTokens = before := by
              by_cases hv : isNotVariableToken t = true
              · rw [if_pos hv] at hyield
                rw [List.mem_singleton.mp hyield]
              · rw [if_neg hv] at hyield
                cases hyield
            rw [this]
            simp only [List.length_cons]
            omega
          · have := ih true after inv htail
            simp only [List.length_cons]
            omega

theorem splitRunKeywordIfAux_arg_lt :
    ∀ (fuel : Nat) (args : List Token) (inv : NestedInvocation),
      inv ∈ splitRunKeywordIfAux fuel args →
      inv.argTokens.length < args.length + 1 := by
  intro fuel
  induction fuel with
  | zero =>
    intro args inv h
    simp [splitRunKeywordIfAux] at h
  | succ fuel ih =>
    intro args inv h
    match args with
    | [] => simp [splitRunKeywordIfAux] at h
    | t :: rest =>
      rw [splitRunKeywordIfAux] at h
      by_cases helse : isElseSeparator t = true
      · rw [if_pos helse] at h
        have := ih rest inv h
        simp only [List.length_cons]
        omega
      · rw [if_neg helse] at h
        rcases hsp : splitAtFirst isElseSeparator rest with _ | ⟨⟨before, sep, after⟩⟩
        · rw [hsp] at h
          rcases List.mem_append.mp h with hyield | htail
          · have : inv.argTokens = [] := by
              by_cases hv : isNotVariableToken t = true
              · rw [if_pos hv] at hyield
                rw [List.mem_singleton.mp hyield]
              · rw [if_neg hv] at hyield
                cases hyield
            simp [this]
          · have := ih rest inv htail
            simp only [List.length_cons]
            omega
        · rw [hsp] at h
          have hlen := splitAtFirst_length isElseSeparator rest before sep after hsp
          rcases List.mem_append.mp h with hyield | htail
          · have : inv.argTokens = before := by
              by_cases hv : isNotVariableToken t = true
              · rw [if_pos hv] at hyield
                rw [List.mem_singleton.mp hyield]
              · rw [if_neg hv] at hyield
                cases hyield
            rw [this]
            simp only [List.length_cons]
            omega
          · have htail2 := ih (if sep.value == "ELSE IF" then after.drop 1 else after) inv htail
            have hdrop : (if sep.value == "ELSE IF" then after.drop 1 else after).length
                ≤ after.length := by
              by_cases hs : (sep.value == "ELSE IF") = true
              · simp [hs]
              · simp [hs]
            simp only [List.length_cons]
            omega

theorem unwrapAnyRunKeyword_arg_lt (ns : RFNamespace) (kwToken : Token)
    (arguments : List Token) (inv : NestedInvocation)
    (h : inv ∈ unwrapAnyRunKeyword ns kwToken arguments) :
    inv.argTokens.length < arguments.length := by
  by_cases hv : isNotVariableToken kwToken = true
  · rcases hfk : ns.findKeyword kwToken.value with _ | kw
    · simp [unwrapAnyRunKeyword, hv, hfk] at h
    · rcases hkind : kw.runKind with _ | _ | n | _ | _
      · simp [unwrapAnyRunKeyword, hv, hfk, hkind] at h
      · match arguments with
        | [] => simp [unwrapAnyRunKeyword, hv, hfk, hkind] at h
        | a0 :: rest =>
          by_cases ha : isNotVariableToken a0 = true
          · simp only [unwrapAnyRunKeyword, hv, if_true, hfk, hkind, ha,
              List.mem_singleton] at h
            rw [h]
            simp only [List.length_cons]
            omega
          · simp [unwrapAnyRunKeyword, hv, hfk, hkind, ha] at h
      · by_cases hlen : n < arguments.length
        · rcases ha1 : arguments[1]? with _ | a1
          · simp [unwrapAnyRunKeyword, hv, hfk, hkind, hlen, ha1] at h
          · by_cases hvar : isNotVariableToken a1 = true
            · simp only [unwrapAnyRunKeyword, hv, if_true, hfk, hkind, hlen, dif_pos,
                ha1, hvar, List.mem_singleton] at h
              rw [h]
              simp only [List.length_drop]
              omega
            · simp [unwrapAnyRunKeyword, hv, hfk, hkind, hlen, ha1, hvar] at h
        · simp [unwrapAnyRunKeyword, hv, hfk, hkind, hlen] at h
      · have h2 : inv ∈ splitRunKeywords arguments := by
          simpa [unwrapAnyRunKeyword, hv, hfk, hkind] using h
        rw [splitRunKeywords] at h2
        exact splitRunKeywordsAux_arg_lt (arguments.length + 1) false arguments inv h2
      · match arguments with
        | [] => simp [unwrapAnyRunKeyword, hv, hfk, hkind] at h
        | c :: rest =>
          by_cases hre : rest.isEmpty = true
          · simp [unwrapAnyRunKeyword, hv, hfk, hkind, hre] at h
          · have h2 : inv ∈ splitRunKeywordIf rest := by
              simpa [unwrapAnyRunKeyword, hv, hfk, hkind, hre] using h
            rw [splitRunKeywordIf] at h2
            have := splitRunKeywordIfAux_arg_lt (rest.length + 1) rest inv h2
            simp only [List.length_cons]
            omega
  · simp [unwrapAnyRunKeyword, hv] at h

/-! ## Helper lemmas about the dispatch loops -/

@[simp] theorem isErrorEntry_ok {ε ρ : Type} (r : ρ) :
    isErrorEntry (Except.ok r : Except ε ρ) = false := rfl

@[simp] theorem isErrorEntry_error {ε ρ : Type} (e : ε) :
    isErrorEntry (Except.error e : Except ε ρ) = true := rfl

theorem notifyCompletedLoop_false_eq {ε ρ : Type} (xs : List (Except ε ρ)) :
    notifyCompletedLoop false xs = xs := by
  induction xs with
  | nil => rfl
  | cons x rest ih => cases x <;> simp [notifyCompletedLoop, ih]

theorem notifyCompletedLoop_true_countP_error {ε ρ : Type} (xs : List (Except ε ρ)) :
    (notifyCompletedLoop true xs).countP (fun x => isErrorEntry x) = 0 := by
  induction xs with
  | nil => rfl
  | cons x rest ih =>
    cases x with
    | ok r =>
      simp only [notifyCompletedLoop, List.countP_cons, isErrorEntry_ok]
      simpa using ih
    | error e =>
      simpa [notifyCompletedLoop] using ih

theorem notifyCompletedLoop_true_length {ε ρ : Type} (xs : List (Except ε ρ)) :
    (notifyCompletedLoop true xs).length = xs.countP (fun x => !isErrorEntry x) := by
  induction xs with
  | nil => rfl
  | cons x rest ih =>
    cases x with
    | ok r =>
      simp only [notifyCompletedLoop, List.length_cons, List.countP_cons, isErrorEntry_ok]
      simp [ih]
    | error e =>
      simpa [notifyCompletedLoop, List.countP_cons] using ih

theorem mem_notifyCompletedLoop_of_ok {ε ρ : Type} (ig : Bool) (r : ρ)
    (xs : List (Except ε ρ)) (h : Except.ok r ∈ xs) :
    Except.ok r ∈ notifyCompletedLoop ig xs := by
  induction xs with
  | nil => cases h
  | cons x rest ih =>
    cases h with
    | head => simp [notifyCompletedLoop]
    | tail _ hrest =>
      cases x with
      | ok v => simp [notifyCompletedLoop, ih hrest]
      | error e => simp [notifyCompletedLoop, ih hrest]

/-- C5.  For every concurrent-task dispatch, with ignoreErrors=true (the
default) a listener that raises contributes no entry at all to the result
collection (no error-tagged entries, and the collection has exactly one
entry per succeeding listener), with ignoreErrors=false the collection
contains exactly one error-tagged entry per failing listener, and a
raising listener never prevents another listener's result from appearing.
`completed` is the listeners' outcome stream in completion order, an
arbitrary permutation of the per-listener outcomes. -/
theorem c5_dispatch_error_isolation {ε ρ : Type} (s : EventState)
    (behavior : Nat → Except ε ρ) (completed : List (Except ε ρ))
    (hperm : completed.Perm (listenerOutcomes s behavior)) :
    (notifyCompletedLoop true completed).countP (fun x => isErrorEntry x) = 0
      ∧ (notifyCompletedLoop true completed).length
          = s.listeners.countP (fun l => !isErrorEntry (behavior l))
      ∧ (notifyCompletedLoop false completed).countP (fun x => isErrorEntry x)
          = s.listeners.countP (fun l => isErrorEntry (behavior l))
      ∧ ∀ (ig : Bool) (l : Nat) (r : ρ), l ∈ s.listeners → behavior l = Except.ok r →
          Except.ok r ∈ notifyCompletedLoop ig completed := by
  have hcount : ∀ p : Except ε ρ → Bool,
      completed.countP p = s.listeners.countP (fun l => p (behavior l)) := by
    intro p
    have h1 := hperm.countP_eq p
    simpa [listenerOutcomes, List.countP_map, Function.comp] using h1
  refine ⟨notifyCompletedLoop_true_countP_error completed, ?_, ?_, ?_⟩
  · rw [notifyCompletedLoop_true_length]
    exact hcount (fun x => !isErrorEntry x)
  · rw [notifyCompletedLoop_false_eq]
    exact hcount (fun x => isErrorEntry x)
  · intro ig l r hl hb
    apply mem_notifyCompletedLoop_of_ok
    apply hperm.mem_iff.mpr
    have : Except.ok r = behavior l := hb.symm
    rw [this]
    exact List.mem_map_of_mem behavior hl

/-- Witness for C5 at a concrete dispatch: two listeners, the second
raising, consumed in reversed completion order. -/
theorem c5_witness :
    (notifyCompletedLoop true [Except.error "boom", Except.ok 7]).countP
        (fun x => isErrorEntry x) = 0
      ∧ (notifyCompletedLoop true [Except.error "boom", Except.ok 7]).length
          = (EventState.mk [1, 2]).listeners.countP (fun l =>
              !isErrorEntry (if l = 1 then (Except.ok 7 : Except String Nat)
                             else Except.error "boom"))
      ∧ (notifyCompletedLoop false [Except.error "boom", Except.ok 7]).countP
          (fun x => isErrorEntry x)
          = (EventState.mk [1, 2]).listeners.countP (fun l =>
              isErrorEntry (if l = 1 then (Except.ok 7 : Except String Nat)
                            else Except.error "boom"))
      ∧ Except.ok 7 ∈ notifyCompletedLoop true [Except.error "boom", Except.ok 7] := by
  have hperm : ([Except.error "boom", Except.ok 7] : List (Except String Nat)).Perm
      (listenerOutcomes (EventState.mk [1, 2])
        (fun l => if l = 1 then (Except.ok 7 : Except String Nat) else Except.error "boom")) := by
    have houtcomes : listenerOutcomes (EventState.mk [1, 2])
        (fun l => if l = 1 then (Except.ok 7 : Except String Nat) else Except.error "boom")
        = [Except.ok 7, Except.error "boom"] := rfl
    rw [houtcomes]
    exact List.Perm.swap (Except.ok 7) (Except.error "boom") []
  have h := c5_dispatch_error_isolation (EventState.mk [1, 2])
    (fun l => if l = 1 then (Except.ok 7 : Except String Nat) else Except.error "boom")
    [Except.error "boom", Except.ok 7] hperm
  exact ⟨h.1, h.2.1, h.2.2.1, h.2.2.2 true 1 7 (by decide) rfl⟩

/-! ## Helper lemmas about the listener registry -/

theorem mem_addListener_self (s : EventState) (l : Nat) :
    l ∈ (addListener s l).listeners := by
  by_cases h : l ∈ s.listeners <;> simp [addListener, h]

theorem notMem_applyOp {s : EventState} {l : Nat} (op : EventOp)
    (hs : l ∉ s.listeners) (hop : op ≠ EventOp.add l) :
    l ∉ (applyOp s op).listeners := by
  cases op with
  | add m =>
    have hne : m ≠ l := by
      intro h
      exact hop (by rw [h])
    by_cases hm : m ∈ s.listeners
    · simpa [applyOp, addListener, hm] using hs
    · simp only [applyOp, addListener, hm, if_neg]
      intro hmem
      rcases List.mem_append.mp hmem with h1 | h1
      · exact hs h1
      · exact hne (List.mem_singleton.mp h1).symm
  | remove m =>
    by_cases hm : m ∈ s.listeners
    · simp only [applyOp, removeListener, hm, if_pos]
      intro hmem
      exact hs (List.mem_of_mem_erase hmem)
    · simpa [applyOp, removeListener, hm] using hs
  | expire m =>
    intro hmem
    exact hs (List.mem_of_mem_erase hmem)

theorem notMem_foldl_applyOp {l : Nat} (ops : List EventOp) (s : EventState)
    (hs : l ∉ s.listeners) (hops : ∀ op ∈ ops, op ≠ EventOp.add l) :
    l ∉ (ops.foldl applyOp s).listeners := by
  induction ops generalizing s with
  | nil => exact hs
  | cons op rest ih =>
    simp only [List.foldl_cons]
    exact ih (applyOp s op)
      (notMem_applyOp op hs (hops op (List.mem_cons_self op rest)))
      (fun o ho => hops o (List.mem_cons_of_mem op ho))

/-- C6.  For every dispatcher, remove fails with the NotFound error when
the listener was never added or has already expired (it is not in the
registry), and after a successful remove — and any further registry
activity that does not re-add the listener — no subsequent dispatch
invokes that listener. -/
theorem c6_remove_contract (s : EventState) (l : Nat) :
    (l ∉ s.listeners → removeListener s l = Except.error ())
      ∧ ∀ (s1 : EventState) (ops : List EventOp), s.listeners.Nodup →
          removeListener s l = Except.ok s1 →
          (∀ op ∈ ops, op ≠ EventOp.add l) →
          l ∉ notifyInvoked (ops.foldl applyOp s1) := by
  constructor
  · intro h
    simp [removeListener, h]
  · intro s1 ops hnodup hok hops
    have hmem : l ∈ s.listeners := by
      by_contra hmem
      simp [removeListener, hmem] at hok
    have hs1 : s1 = ⟨s.listeners.erase l⟩ := by
      simpa [removeListener, hmem] using hok.symm
    have hout : l ∉ s1.listeners := by
      rw [hs1]
      intro h
      rcases (hnodup.mem_erase_iff).mp h with ⟨hne, _⟩
      exact hne rfl
    exact notMem_foldl_applyOp ops s1 hout hops

/-- Witness for C6 at a concrete registry: removing 5 from {1, 2} fails
with NotFound, and after removing 2 from {1, 2} a dispatch following an
add of 3 and an expiry of 1 does not invoke 2. -/
theorem c6_witness :
    removeListener (EventState.mk [1, 2]) 5 = Except.error ()
      ∧ 2 ∉ notifyInvoked
          ([EventOp.add 3, EventOp.expire 1].foldl applyOp (EventState.mk [1])) := by
  constructor
  · exact (c6_remove_contract (EventState.mk [1, 2]) 5).1 (by decide)
  · exact (c6_remove_contract (EventState.mk [1, 2]) 2).2 (EventState.mk [1])
      [EventOp.add 3, EventOp.expire 1] (by decide) rfl (by decide)

/-- C8.  A dispatcher declared via an event descriptor is created lazily on
the first attribute access and is stored on the descriptor — the
declaration site — not on the accessing instance: accesses through any two
instances return the same single dispatcher object, so a listener added
through one instance's view is invoked by a dispatch made through the
other's. -/
theorem c8_descriptor_shared_across_instances (d : EventDescriptor)
    (a b fresh fresh1 : Nat) (hlazy : d.event = none) :
    (descriptorGet d (some a) fresh).1 = DescriptorAccessResult.event fresh
      ∧ (descriptorGet d (some a) fresh).2.event = some fresh
      ∧ (descriptorGet (descriptorGet d (some a) fresh).2 (some b) fresh1).1
          = DescriptorAccessResult.event fresh
      ∧ ∀ (store : EventStore) (l : Nat),
          l ∈ dispatchThrough (addThrough store fresh l) fresh := by
  refine ⟨by simp [descriptorGet, hlazy], by simp [descriptorGet, hlazy],
    by simp [descriptorGet, hlazy], ?_⟩
  intro store l
  simp only [dispatchThrough, addThrough, notifyInvoked, if_pos rfl]
  exact mem_addListener_self (store fresh) l

/-- Witness for C8 at a concrete descriptor: a fresh declaration-site
descriptor accessed through instances 1 and 2. -/
theorem c8_witness :
    (descriptorGet ⟨none⟩ (some 1) 7).1 = DescriptorAccessResult.event 7
      ∧ (descriptorGet ⟨none⟩ (some 1) 7).2.event = some 7
      ∧ (descriptorGet (descriptorGet ⟨none⟩ (some 1) 7).2 (some 2) 9).1
          = DescriptorAccessResult.event 7
      ∧ 5 ∈ dispatchThrough (addThrough (fun _ => EventState.mk []) 7 5) 7 := by
  have h := c8_descriptor_shared_across_instances ⟨none⟩ 1 2 7 9 rfl
  exact ⟨h.1, h.2.1, h.2.2.1, h.2.2.2 (fun _ => EventState.mk []) 5⟩

/-- C9.  The two workspace search entry points are asymmetric on absent
prerequisites: with no owning workspace folder both return the empty list,
but with a folder and an absent namespace both return the absent value
rather than a list — and the construct handlers' list splice of that
absent result fails instead of producing an absent result. -/
theorem c9_entry_point_asymmetry :
    (∀ (ns : Option RFNamespace) (perFile : List (Except String (List Location))),
      findKeywordReferences none ns perFile = some [])
      ∧ (∀ (ns : Option RFNamespace) (target : VariableDefinition)
          (cur : Except String (List Location))
          (perFile : List (Except String (List Location))),
          findVariableReferences none ns target cur perFile = some [])
      ∧ (∀ (folder : String) (perFile : List (Except String (List Location))),
          findKeywordReferences (some folder) none perFile = none
            ∧ spliceLocations (findKeywordReferences (some folder) none perFile)
                = Except.error ())
      ∧ (∀ (folder : String) (target : VariableDefinition)
          (cur : Except String (List Location))
          (perFile : List (Except String (List Location))),
          findVariableReferences (some folder) none target cur perFile = none
            ∧ spliceLocations (findVariableReferences (some folder) none target cur perFile)
                = Except.error ()) := by
  refine ⟨fun ns perFile => rfl, fun ns target cur perFile => rfl, ?_, ?_⟩
  · exact fun folder perFile => ⟨rfl, rfl⟩
  · exact fun folder target cur perFile => ⟨rfl, rfl⟩

/-! ## Helper lemmas for the folding-range aggregation -/

theorem collectFoldingRange_no_error (completed : List (Except String (List FoldingRange))) :
    (collectFoldingRange completed).all (fun x => !isErrorEntry x) = true := by
  induction completed with
  | nil => rfl
  | cons x rest ih =>
    cases x <;> simpa [collectFoldingRange, notifyCompletedLoop, isErrorEntry] using ih

/-- C10.  The folding-range request dispatches its threading event without
passing ignore_exceptions, so the default of dropping raised exceptions
applies: the collected entry list contains no exception entry (the
aggregator's exception branch is unreachable), and the aggregated folding
result is exactly the concatenation of the successful listeners' result
lists, in completion order. -/
theorem c10_folding_range_no_error_entries
    (completed : List (Except String (List FoldingRange))) :
    (collectFoldingRange completed).all (fun x => !isErrorEntry x) = true
      ∧ textDocumentFoldingRange completed
          = (completed.filterMap (fun x =>
              match x with
              | .ok fr => some fr
              | .error _ => none)).flatten := by
  refine ⟨collectFoldingRange_no_error completed, ?_⟩
  induction completed with
  | nil => rfl
  | cons x rest ih =>
    cases x with
    | ok fr =>
      simpa [textDocumentFoldingRange, collectFoldingRange, notifyCompletedLoop,
        foldingAggregate, List.filterMap_cons] using ih
    | error e =>
      simpa [textDocumentFoldingRange, collectFoldingRange, notifyCompletedLoop,
        foldingAggregate, List.filterMap_cons] using ih

/-- Counterexample for C2.  The call resolves to a conditional run-keyword
wrapper with two condition arguments and carries four argument tokens —
more than two — so the claim asserts the unwrapping takes argument 2 as
the nested keyword name with argument 3 as its argument; but the code
guards on the token at the fixed index 1 being a variable reference and
produces no nested invocation at all. -/
theorem c2_counterexample :
    builtinNs.findKeyword "Wait Until Keyword Succeeds" = some waitUntilDoc
      ∧ waitUntilDoc.runKind = RunKeywordKind.runKeywordWithCondition 2
      ∧ ([⟨"3x", 1⟩, ⟨"${i}", 2⟩, ⟨"KwB", 3⟩, ⟨"a", 4⟩] : List Token).length > 2
      ∧ unwrapAnyRunKeyword builtinNs ⟨"Wait Until Keyword Succeeds", 0⟩
          [⟨"3x", 1⟩, ⟨"${i}", 2⟩, ⟨"KwB", 3⟩, ⟨"a", 4⟩] = []
      ∧ unwrapAnyRunKeyword builtinNs ⟨"Wait Until Keyword Succeeds", 0⟩
          [⟨"3x", 1⟩, ⟨"${i}", 2⟩, ⟨"KwB", 3⟩, ⟨"a", 4⟩]
          ≠ [⟨⟨"KwB", 3⟩, [⟨"a", 4⟩], true⟩] := by
  exact ⟨rfl, rfl, by decide, rfl, by decide⟩

/-- C2 (amended).  For every call whose non-variable name token resolves to
a conditional run-keyword wrapper with N condition arguments, whose
argument list has more than N tokens, and whose argument token at index 1
is not a variable reference, unwrapping takes arguments 0..N-1 as the
condition(s), argument N (escape-decoded) as the nested keyword name, and
arguments N+1 onward as the nested invocation's arguments. -/
theorem c2_conditional_unwrap_shape (ns : RFNamespace) (tok : Token)
    (args : List Token) (kw : KeywordDoc) (n : Nat) (a1 : Token)
    (htok : isNotVariableToken tok = true)
    (hfind : ns.findKeyword tok.value = some kw)
    (hkind : kw.runKind = RunKeywordKind.runKeywordWithCondition n)
    (hlen : n < args.length)
    (ha1 : args[1]? = some a1)
    (ha1v : isNotVariableToken a1 = true) :
    unwrapAnyRunKeyword ns tok args = [⟨args.get ⟨n, hlen⟩, args.drop (n + 1), true⟩] := by
  simp [unwrapAnyRunKeyword, htok, hfind, hkind, hlen, ha1, ha1v]

/-- Witness for the amended C2 at a concrete call: a conditional wrapper
with one condition argument and two further tokens. -/
theorem c2_witness :
    unwrapAnyRunKeyword builtinNs ⟨"Run Keyword And Return If", 0⟩
        [⟨"True", 1⟩, ⟨"KwB", 2⟩, ⟨"a", 3⟩]
      = [⟨⟨"KwB", 2⟩, [⟨"a", 3⟩], true⟩] := by
  have h := c2_conditional_unwrap_shape builtinNs ⟨"Run Keyword And Return If", 0⟩
    [⟨"True", 1⟩, ⟨"KwB", 2⟩, ⟨"a", 3⟩] returnIfDoc 1 ⟨"KwB", 2⟩
    rfl rfl rfl (by decide) rfl rfl
  simpa using h

/-- C3 (code bug).  Evaluating the run-keywords unwrapping at the input of
the claim: the wrapper call with argument tokens KwA, AND, KwB, arg1
produces THREE nested invocations — (KwA, no arguments), (KwB, [arg1]) and
a spurious (arg1, no arguments) — because the splitting loop, after
handing the final segment's tail to its head keyword as arguments, does
not consume that tail and rescans each of its tokens as a further
zero-argument invocation; the claim (and the wrapper's intended
semantics) require exactly the first two. -/
theorem c3_run_keywords_unwrap_at_failing_input :
    unwrapAnyRunKeyword builtinNs ⟨"Run Keywords", 0⟩
        [⟨"KwA", 1⟩, ⟨"AND", 2⟩, ⟨"KwB", 3⟩, ⟨"arg1", 4⟩]
      = [⟨⟨"KwA", 1⟩, [], true⟩, ⟨⟨"KwB", 3⟩, [⟨"arg1", 4⟩], true⟩,
         ⟨⟨"arg1", 4⟩, [], true⟩]
      ∧ (unwrapAnyRunKeyword builtinNs ⟨"Run Keywords", 0⟩
          [⟨"KwA", 1⟩, ⟨"AND", 2⟩, ⟨"KwB", 3⟩, ⟨"arg1", 4⟩]).length ≠ 2 := by
  exact ⟨rfl, by decide⟩

/-- C4 (code bug).  Evaluating the run-keyword-if unwrapping at a chain
whose terminal ELSE group carries an argument: the argument never reaches
the ELSE keyword's invocation (KwC gets no arguments) and is additionally
rescanned as a spurious zero-argument invocation of its own, against the
claim that the terminal ELSE group contributes a name and its arguments. -/
theorem c4_run_keyword_if_unwrap_at_failing_input :
    unwrapAnyRunKeyword builtinNs ⟨"Run Keyword If", 0⟩
        [⟨"${cond}", 1⟩, ⟨"KwA", 2⟩, ⟨"ELSE", 3⟩, ⟨"KwC", 4⟩, ⟨"arg2", 5⟩]
      = [⟨⟨"KwA", 2⟩, [], true⟩, ⟨⟨"KwC", 4⟩, [], true⟩, ⟨⟨"arg2", 5⟩, [], true⟩]
      ∧ NestedInvocation.mk ⟨"KwC", 4⟩ [⟨"arg2", 5⟩] true
          ∉ unwrapAnyRunKeyword builtinNs ⟨"Run Keyword If", 0⟩
              [⟨"${cond}", 1⟩, ⟨"KwA", 2⟩, ⟨"ELSE", 3⟩, ⟨"KwC", 4⟩, ⟨"arg2", 5⟩] := by
  exact ⟨rfl, by decide⟩

/-! ## Cancellation traces of the per-file walks -/

theorem keywordWalk_trace_counts (ns : RFNamespace) (kwDoc : KeywordDoc)
    (model : List RNode) :
    (findKeywordReferencesInNamespace ns kwDoc model).1.count WalkEvent.checkCanceled
        = model.length
      ∧ (findKeywordReferencesInNamespace ns kwDoc model).1.count WalkEvent.visit
        = model.length := by
  induction model with
  | nil => exact ⟨rfl, rfl⟩
  | cons n rest ih =>
    refine ⟨?_, ?_⟩
    · simpa [findKeywordReferencesInNamespace, List.count_cons] using ih.1
    · simpa [findKeywordReferencesInNamespace, List.count_cons] using ih.2

theorem variableWalk_trace_eq (ns : RFNamespace) (target : VariableDefinition)
    (uri : String) (model : List VNode) (currentBlock : Option Nat) :
    (findVariableReferencesInFileAux ns target uri currentBlock model).1
      = List.replicate model.length WalkEvent.visit := by
  induction model generalizing currentBlock with
  | nil => rfl
  | cons n rest ih =>
    simp [findVariableReferencesInFileAux, List.replicate_succ, ih]

/-- Counterexample for C7.  A variable-reference walk over a one-node file
visits that node but performs no cancellation check at all, against the
claim that both per-file walks check cancellation on every node they
visit. -/
theorem c7_counterexample :
    (findVariableReferencesInFile
        ⟨"file:///v.robot", fun _ => none, [], [], fun _ _ _ => none⟩
        ⟨7, "${v}", false⟩ "file:///v.robot" [VNode.stmt 0 []]).1.count
        WalkEvent.checkCanceled = 0
      ∧ (findVariableReferencesInFile
          ⟨"file:///v.robot", fun _ => none, [], [], fun _ _ _ => none⟩
          ⟨7, "${v}", false⟩ "file:///v.robot" [VNode.stmt 0 []]).1.count
          WalkEvent.visit = 1 := by
  exact ⟨rfl, rfl⟩

/-- C7 (amended).  During workspace-wide reference search, the per-file
keyword-reference walk checks the cancellation signal exactly once per
node it visits, but the per-file variable-reference walk performs no
per-node cancellation check at all. -/
theorem c7_per_node_cancellation :
    (∀ (ns : RFNamespace) (kwDoc : KeywordDoc) (model : List RNode),
      (findKeywordReferencesInNamespace ns kwDoc model).1.count WalkEvent.checkCanceled
          = model.length
        ∧ (findKeywordReferencesInNamespace ns kwDoc model).1.count WalkEvent.visit
          = model.length)
      ∧ (∀ (ns : RFNamespace) (target : VariableDefinition) (uri : String)
          (model : List VNode),
          (findVariableReferencesInFile ns target uri model).1.count WalkEvent.checkCanceled
              = 0
            ∧ (findVariableReferencesInFile ns target uri model).1.count WalkEvent.visit
              = model.length) := by
  refine ⟨keywordWalk_trace_counts, ?_⟩
  intro ns target uri model
  rw [findVariableReferencesInFile, variableWalk_trace_eq]
  constructor
  · simp [List.count_replicate]
  · simp [List.count_replicate]

/-! ## Soundness of the acceptance checks (claim C1) -/

theorem getKeywordReferencesFromTokensAux_sound (ns : RFNamespace) (kwDoc : KeywordDoc) :
    ∀ (fuel : Nat) (tok : Token) (args : List Token) (uesc : Bool) (loc : Location),
      loc ∈ getKeywordReferencesFromTokensAux ns kwDoc fuel tok args uesc →
      ∃ (fullName bare : String) (lib : Option String),
        (lib, bare) ∈ iterOverKeywordNamesAndOwners fullName
          ∧ normalizeName bare = normalizeName kwDoc.name
          ∧ ns.findKeyword fullName = some kwDoc := by
  intro fuel
  induction fuel with
  | zero =>
    intro tok args uesc loc h
    simp [getKeywordReferencesFromTokensAux] at h
  | succ fuel ih =>
    intro tok args uesc loc h
    by_cases hv : isNotVariableToken tok = true
    · rw [getKeywordReferencesFromTokensAux, if_pos hv] at h
      rcases List.mem_flatMap.mp h with ⟨ln, hln, hmem⟩
      by_cases hlib : libraryOk ns ln.1 = true
      · rw [if_pos hlib] at hmem
        rcases List.mem_append.mp hmem with hdir | hrec
        · by_cases hnm : normalizeName ln.2 = normalizeName kwDoc.name
          · rw [if_pos hnm] at hdir
            rcases hfk : ns.findKeyword
                (if uesc then unescapeString tok.value else tok.value) with _ | kw
            · rw [hfk] at hdir
              simp at hdir
            · rw [hfk] at hdir
              by_cases hdk : kw = kwDoc
              · refine ⟨if uesc then unescapeString tok.value else tok.value, ln.2, ln.1,
                  ?_, hnm, by rw [hfk, hdk]⟩
                simpa using hln
              · simp [hdk] at hdir
          · simp [hnm] at hdir
        · have hrec2 : loc ∈ (unwrapAnyRunKeyword ns tok args).flatMap (fun inv =>
              getKeywordReferencesFromTokensAux ns kwDoc fuel inv.nameToken inv.argTokens
                inv.unescapeName) := by
            by_cases hrk : (allRunKeywordsMatchers.contains (normalizeName ln.2)
                && !args.isEmpty) = true
            · rwa [if_pos hrk] at hrec
            · rw [if_neg hrk] at hrec
              exact absurd hrec (List.not_mem_nil loc)
          rcases List.mem_flatMap.mp hrec2 with ⟨inv, _, hmem2⟩
          exact ih inv.nameToken inv.argTokens inv.unescapeName loc hmem2
      · simp [hlib] at hmem
    · simp [getKeywordReferencesFromTokensAux, hv] at h

theorem findVariableReferencesInFileAux_sound (ns : RFNamespace)
    (target : VariableDefinition) (uri : String) :
    ∀ (model : List VNode) (currentBlock : Option Nat) (loc : Location),
      loc ∈ (findVariableReferencesInFileAux ns target uri currentBlock model).2 →
      ∃ (nm : String) (chain : List Nat) (p : Nat),
        ns.findVariable nm chain p = some target := by
  intro model
  induction model with
  | nil =>
    intro currentBlock loc h
    simp [findVariableReferencesInFileAux] at h
  | cons n rest ih =>
    intro currentBlock loc h
    simp only [findVariableReferencesInFileAux] at h
    rcases List.mem_append.mp h with hstep | htail
    · cases n with
      | block i => simp [variableWalkStep] at hstep
      | stmt i toks =>
        simp only [variableWalkStep] at hstep
        rcases List.mem_flatMap.mp hstep with ⟨tok, _, h2⟩
        rcases List.mem_flatMap.mp h2 with ⟨sub, _, h3⟩
        rcases hfv : ns.findVariable sub.value (currentBlock.toList ++ [i]) tok.pos
            with _ | v
        · rw [hfv] at h3
          simp at h3
        · rw [hfv] at h3
          by_cases hvt : v = target
          · exact ⟨sub.value, currentBlock.toList ++ [i], tok.pos, by rw [hfv, hvt]⟩
          · simp [hvt] at h3
      | _ => simp [variableWalkStep] at hstep
    · exact ih _ loc htail

/-- C1.  A workspace-search candidate is accepted only on re-resolution to
the identical definition object: every location produced by the
keyword-match step comes from a name whose bare part normalize-matches the
target keyword's declared name and whose re-resolution through the
searched file's namespace is exactly the target definition object; every
location produced by the variable walk comes from a token whose resolution
through the enclosing scope chain is exactly the target variable
definition object.  Consequently a namespace in which no name resolves to
the target definition object — in particular one resolving equal names to
same-named but distinct definitions — yields no match at all. -/
theorem c1_identity_required_for_acceptance :
    (∀ (ns : RFNamespace) (kwDoc : KeywordDoc) (tok : Option Token)
        (args : List Token) (uesc : Bool) (loc : Location),
        loc ∈ getKeywordReferencesFromTokens ns kwDoc tok args uesc →
        ∃ (fullName bare : String) (lib : Option String),
          (lib, bare) ∈ iterOverKeywordNamesAndOwners fullName
            ∧ normalizeName bare = normalizeName kwDoc.name
            ∧ ns.findKeyword fullName = some kwDoc)
      ∧ (∀ (ns : RFNamespace) (target : VariableDefinition) (uri : String)
          (model : List VNode) (loc : Location),
          loc ∈ (findVariableReferencesInFile ns target uri model).2 →
          ∃ (nm : String) (chain : List Nat) (p : Nat),
            ns.findVariable nm chain p = some target)
      ∧ (∀ (ns : RFNamespace) (kwDoc : KeywordDoc) (tok : Option Token)
          (args : List Token) (uesc : Bool),
          (∀ nm, ns.findKeyword nm ≠ some kwDoc) →
          getKeywordReferencesFromTokens ns kwDoc tok args uesc = [])
      ∧ (∀ (ns : RFNamespace) (target : VariableDefinition) (uri : String)
          (model : List VNode),
          (∀ (nm : String) (chain : List Nat) (p : Nat),
            ns.findVariable nm chain p ≠ some target) →
          (findVariableReferencesInFile ns target uri model).2 = []) := by
  have hkw : ∀ (ns : RFNamespace) (kwDoc : KeywordDoc) (tok : Option Token)
      (args : List Token) (uesc : Bool) (loc : Location),
      loc ∈ getKeywordReferencesFromTokens ns kwDoc tok args uesc →
      ∃ (fullName bare : String) (lib : Option String),
        (lib, bare) ∈ iterOverKeywordNamesAndOwners fullName
          ∧ normalizeName bare = normalizeName kwDoc.name
          ∧ ns.findKeyword fullName = some kwDoc := by
    intro ns kwDoc tok args uesc loc h
    cases tok with
    | none => simp [getKeywordReferencesFromTokens] at h
    | some t =>
      exact getKeywordReferencesFromTokensAux_sound ns kwDoc (args.length + 1)
        t args uesc loc h
  have hvar := fun ns target uri model loc h =>
    findVariableReferencesInFileAux_sound ns target uri model none loc h
  refine ⟨hkw, hvar, ?_, ?_⟩
  · intro ns kwDoc tok args uesc hnone
    rw [List.eq_nil_iff_forall_not_mem]
    intro loc hmem
    rcases hkw ns kwDoc tok args uesc loc hmem with ⟨fullName, _, _, _, _, hres⟩
    exact hnone fullName hres
  · intro ns target uri model hnone
    rw [List.eq_nil_iff_forall_not_mem]
    intro loc hmem
    rcases hvar ns target uri model loc hmem with ⟨nm, chain, p, hres⟩
    exact hnone nm chain p hres

/-- Witness for C1 at concrete inputs: an accepted keyword use site and an
accepted variable use site yield re-resolution identities, and the
same-named but distinct definitions yield no match at all. -/
theorem c1_witness :
    (∃ (fullName bare : String) (lib : Option String),
      (lib, bare) ∈ iterOverKeywordNamesAndOwners fullName
        ∧ normalizeName bare = normalizeName targetKwDoc.name
        ∧ kwNs.findKeyword fullName = some targetKwDoc)
      ∧ (∃ (nm : String) (chain : List Nat) (p : Nat),
          varNs.findVariable nm chain p = some varTarget)
      ∧ getKeywordReferencesFromTokens kwNsOther targetKwDoc (some ⟨"My_KW", 5⟩) [] false
          = []
      ∧ (findVariableReferencesInFile varNsOther varTarget "file:///o.robot"
          [VNode.block 3, VNode.stmt 4 [⟨"Log ${v}", 10⟩]]).2 = [] := by
  refine ⟨?_, ?_, ?_, ?_⟩
  · exact c1_identity_required_for_acceptance.1 kwNs targetKwDoc (some ⟨"My_KW", 5⟩)
      [] false ⟨"file:///lib.robot", 5⟩ (by decide)
  · exact c1_identity_required_for_acceptance.2.1 varNs varTarget "file:///s.robot"
      [VNode.block 3, VNode.stmt 4 [⟨"Log ${v}", 10⟩]] ⟨"file:///s.robot", 14⟩ (by decide)
  · refine c1_identity_required_for_acceptance.2.2.1 kwNsOther targetKwDoc
      (some ⟨"My_KW", 5⟩) [] false ?_
    intro nm h
    by_cases hn : normalizeName nm = "mykw"
    · simp only [kwNsOther, hn, if_pos] at h
      have : otherKwDoc = targetKwDoc := Option.some.inj h
      exact absurd this (by decide)
    · simp [kwNsOther, hn] at h
  · refine c1_identity_required_for_acceptance.2.2.2 varNsOther varTarget "file:///o.robot"
      [VNode.block 3, VNode.stmt 4 [⟨"Log ${v}", 10⟩]] ?_
    intro nm chain p h
    by_cases hn : nm = "${v}"
    · simp only [varNsOther, hn, if_pos] at h
      have : varOther = varTarget := Option.some.inj h
      exact absurd this (by decide)
    · simp [varNsOther, hn] at h

end RobotCode
